import Mathlib

/-!
Verification of the itchysats core fragment: the libp2p endpoint actor
(`libp2p-xtra/src/endpoint.rs`), the taker controller actor
(`daemon/src/taker_cfd_actor.rs`), and the RolloverCompleted persistence layer
(`sqlite-db/src/rollover/{insert,load}.rs`).

Modelling conventions:
* Machine integers are embedded as `Fin (2 ^ 64)` (u64, usize), `Fin (2 ^ 32)` (u32)
  and `Int` (the i64 columns of the sqlite store).  Rust `as` casts between them are
  modelled exactly (two's complement reinterpretation).
* Externally-serialized opaque values (secp keys, signatures, transactions, bitcoin
  addresses, descriptors, scripts, txids, oracle event ids, funding rates) are opaque
  atoms; their textual encode/decode round-trips are library guarantees of bdk/secp
  and are modelled as the identity embedding.  Every numeric conversion performed by
  the repository itself is modelled bit-exactly.
* Actor handlers are embedded as pure state-transition functions on the fields of the
  actor struct that they read and write.
-/

namespace Itchysats


/-! ## Machine integer embeddings -/

abbrev U64 := Fin (2 ^ 64)

abbrev U32 := Fin (2 ^ 32)

/-- Rust `x as i64` applied to a `u64` value: two's complement reinterpretation. -/
def u64_as_i64 (n : U64) : Int :=
  if n.val < 2 ^ 63 then (n.val : Int) else (n.val : Int) - 2 ^ 64

/-- Rust `x as u64` applied to an `i64` value: two's complement reinterpretation. -/
def i64_as_u64 (i : Int) : U64 :=
  ⟨(i % 2 ^ 64).toNat, by omega⟩

/-- Rust `x as u32` applied to an `i64` value: truncation mod `2 ^ 32`. -/
def i64_as_u32 (i : Int) : U32 :=
  ⟨(i % 2 ^ 32).toNat, by omega⟩

/-! ## Endpoint actor (`libp2p-xtra/src/endpoint.rs`)

The `Endpoint` struct owns `controls : HashMap<PeerId, (yamux::Control, Tasks)>`,
`inflight_connections : HashSet<PeerId>` and `listen_addresses : HashSet<Multiaddr>`.
The yamux control and task handles are opaque runtime resources that none of the
claims mention, so the `controls` map is embedded by its key set.  Hash maps and hash
sets are embedded as duplicate-free lists with guarded insertion and filtering
removal. -/

abbrev PeerId := Nat

/-- Modelled from the spec: a `Multiaddr` is a hierarchical network address that
optionally carries a `/p2p/<PeerId>` suffix (`multiaddress_ext.rs` is not part of the
provided sources; only the suffix component is observable through
`extract_peer_id`). -/
structure Multiaddr where
  base : Nat
  p2pSuffix : Option PeerId
deriving DecidableEq, Repr

/-- Modelled from the spec: `MultiaddrExt::extract_peer_id` returns the peer id
carried by the trailing `/p2p` component of the address, if any. -/
def extract_peer_id (a : Multiaddr) : Option PeerId :=
  a.p2pSuffix

/-- Key-set insertion for the embedded hash map / hash set. -/
def insertPeer (p : PeerId) (l : List PeerId) : List PeerId :=
  if p ∈ l then l else p :: l

/-- Key-set removal for the embedded hash map / hash set. -/
def removePeer (p : PeerId) (l : List PeerId) : List PeerId :=
  l.filter (fun q => decide ¬(q = p))

structure EndpointState where
  controls : List PeerId
  inflight_connections : List PeerId
  listen_addresses : List Multiaddr
deriving DecidableEq, Repr

/-- `Endpoint::new`: `controls`, `listen_addresses` and `inflight_connections` all
start out empty. -/
def initialEndpoint : EndpointState :=
  { controls := [], inflight_connections := [], listen_addresses := [] }

inductive EndpointError where
  | NoConnection (p : PeerId)
  | NegotiationTimeoutReached
  | NegotiationFailed
  | BadConnection
  | NoPeerIdInAddress (a : Multiaddr)
  | AlreadyConnected (p : PeerId)
deriving DecidableEq, Repr

/-- `Endpoint::handle(Connect)` (endpoint.rs lines 333-374): extract the peer id from
the address, reject if it is already in-flight or connected, otherwise record it as
in-flight (the spawned dial task itself performs no state mutation; its outcome
arrives later as a `NewConnection` or `FailedToConnect` self-message). -/
def handleConnect (s : EndpointState) (addr : Multiaddr) :
    EndpointState × Except EndpointError Unit :=
  match extract_peer_id addr with
  | none => (s, .error (.NoPeerIdInAddress addr))
  | some peer =>
    if peer ∈ s.inflight_connections ∨ peer ∈ s.controls then
      (s, .error (.AlreadyConnected peer))
    else
      ({ s with inflight_connections := insertPeer peer s.inflight_connections }, .ok ())

/-- `Endpoint::drop_connection`: remove the peer's control from the map (a no-op when
absent); closing the control and dropping its tasks happens in a spawned task. -/
def drop_connection (s : EndpointState) (peer : PeerId) : EndpointState :=
  { s with controls := removePeer peer s.controls }

/-- `Endpoint::handle(NewConnection)` (endpoint.rs lines 246-303): clear the in-flight
entry, then register the connection's control under the peer. -/
def handleNewConnection (s : EndpointState) (peer : PeerId) : EndpointState :=
  { s with
    inflight_connections := removePeer peer s.inflight_connections,
    controls := insertPeer peer s.controls }

/-- `Endpoint::handle(FailedToConnect)` (endpoint.rs lines 311-317): clear the
in-flight entry and drop any connection state for the peer. -/
def handleFailedToConnect (s : EndpointState) (peer : PeerId) : EndpointState :=
  drop_connection
    { s with inflight_connections := removePeer peer s.inflight_connections } peer

/-- `Endpoint::handle(ExistingConnectionFailed)` (endpoint.rs lines 319-324). -/
def handleExistingConnectionFailed (s : EndpointState) (peer : PeerId) : EndpointState :=
  drop_connection s peer

/-- `Endpoint::handle(Disconnect)` (endpoint.rs lines 376-378). -/
def handleDisconnect (s : EndpointState) (peer : PeerId) : EndpointState :=
  drop_connection s peer

inductive EndpointMsg where
  | Connect (a : Multiaddr)
  | NewConnection (p : PeerId)
  | FailedToConnect (p : PeerId)
  | ExistingConnectionFailed (p : PeerId)
  | Disconnect (p : PeerId)
deriving DecidableEq, Repr

def endpointStep (s : EndpointState) : EndpointMsg → EndpointState
  | .Connect a => (handleConnect s a).1
  | .NewConnection p => handleNewConnection s p
  | .FailedToConnect p => handleFailedToConnect s p
  | .ExistingConnectionFailed p => handleExistingConnectionFailed s p
  | .Disconnect p => handleDisconnect s p

def endpointRun (s : EndpointState) (ms : List EndpointMsg) : EndpointState :=
  ms.foldl endpointStep s

/-- No peer is simultaneously in the in-flight dial set and the connected-controls
map. -/
def inflightControlsDisjoint (s : EndpointState) : Prop :=
  ∀ p : PeerId, p ∈ s.inflight_connections → p ∉ s.controls

/-! ## Handler registry (`verify_unique_handlers`, endpoint.rs lines 454-469)

The registry is an array of `(protocol, handler)` pairs folded into a `HashMap`.
Handlers are opaque `StrongMessageChannel` boxes.  The `debug_assert!` that fires on a
duplicate protocol id is modelled as executed (debug profile), turning construction
into a fallible function: `none` models the assertion failure. -/

abbrev Handler := Nat

/-- `HashMap::insert` on the embedded association list: returns the updated map and
the previous value bound to the key, if any. -/
def insertHandler (m : List (String × Handler)) (proto : String) (h : Handler) :
    List (String × Handler) × Option Handler :=
  match m.find? (fun e => decide (e.1 = proto)) with
  | some e => (m.map (fun e2 => if e2.1 = proto then (proto, h) else e2), some e.2)
  | none => (m ++ [(proto, h)], none)

def verifyUniqueGo (map : List (String × Handler)) :
    List (String × Handler) → Option (List (String × Handler))
  | [] => some map
  | (protocol, handler) :: rest =>
    let res := insertHandler map protocol handler
    if res.2.isSome then none
    else verifyUniqueGo res.1 rest

/-- `verify_unique_handlers`: fold the declared handlers into a map, asserting that no
protocol id was already bound. -/
def verify_unique_handlers (hs : List (String × Handler)) :
    Option (List (String × Handler)) :=
  verifyUniqueGo [] hs

/-- `HashMap::get` on the embedded association list. -/
def lookupHandler (m : List (String × Handler)) (proto : String) : Option Handler :=
  (m.find? (fun e => decide (e.1 = proto))).map (fun e => e.2)

/-! ## Taker controller (`daemon/src/taker_cfd_actor.rs`)

The handler for `Command::IncProtocolMsg` (lines 137-144) reads the single-slot
`current_contract_setup : Option<mpsc::UnboundedSender<SetupMsg>>` owned by the actor
loop.  Wire messages and setup inboxes are opaque to this handler. -/

abbrev SetupMsg := Nat

abbrev SetupInbox := Nat

inductive IncProtocolMsgOutcome where
  | panicked (msg : String)
  | forwardedToSetup (inbox : SetupInbox) (m : SetupMsg)
deriving DecidableEq, Repr

/-- `Command::IncProtocolMsg(msg)` handler: with no contract setup in progress the
source executes `panic!("whoops")`; otherwise it forwards the message to the retained
setup inbox. -/
def handleIncProtocolMsg (current_contract_setup : Option SetupInbox)
    (msg : SetupMsg) : IncProtocolMsgOutcome :=
  match current_contract_setup with
  | none => .panicked "whoops"
  | some inbox => .forwardedToSetup inbox msg

/-! ## Rollover persistence (`sqlite-db/src/rollover/{insert,load}.rs`)

The domain model (`model` crate) is embedded with its shape as used by the store:
opaque externally-serialized values are atoms, amounts are u64 satoshis, the `cets`
hash map is an association list with duplicate-free keys (any Rust `HashMap` value
satisfies that), and `revoked_commit` is an ordered list.

The sqlite store is embedded as the three rollover tables plus the `(uuid, id)`
projection of the `cfds` table, each table an insertion-ordered row list.  Each
`execute` of a sub-insert consults a fault oracle `faults : List Bool` (index =
position of the sub-insert inside the transaction): `true` means the statement
succeeds with `rows_affected = 1`, `false` means it reports `rows_affected ≠ 1`, which
the source turns into a `bail!`.  The surrounding sqlite transaction is atomic by
construction: an `Except.error` outcome leaves the caller's store untouched
(`commitStore`). -/

abbrev SecretKey := Nat

abbrev PublicKey := Nat

abbrev AdaptorSignature := Nat

abbrev EcdsaSignature := Nat

abbrev Txid := Nat

abbrev Address := Nat

abbrev OutputDescriptor := Nat

abbrev Transaction := Nat

abbrev Script := Nat

abbrev FundingRate := Nat

abbrev BitMexPriceEventId := Nat

abbrev OrderId := Nat

structure Cet where
  adaptor_sig : AdaptorSignature
  maker_amount : U64
  taker_amount : U64
  n_bits : U64
  range_start : U64
  range_end : U64
  txid : Txid
deriving DecidableEq, Repr

structure RevokedCommit where
  encsig_ours : AdaptorSignature
  publication_pk_theirs : PublicKey
  revocation_sk_theirs : SecretKey
  script_pubkey : Script
  txid : Txid
deriving DecidableEq, Repr

structure Dlc where
  identity : SecretKey
  identity_counterparty : PublicKey
  revocation : SecretKey
  revocation_pk_counterparty : PublicKey
  publish : SecretKey
  publish_pk_counterparty : PublicKey
  maker_address : Address
  taker_address : Address
  lock : Transaction × OutputDescriptor
  commit : Transaction × AdaptorSignature × OutputDescriptor
  refund : Transaction × EcdsaSignature
  cets : List (BitMexPriceEventId × List Cet)
  maker_lock_amount : U64
  taker_lock_amount : U64
  revoked_commit : List RevokedCommit
  settlement_event_id : BitMexPriceEventId
  refund_timelock : U32
deriving DecidableEq, Repr

structure FundingFee where
  fee : U64
  rate : FundingRate
deriving DecidableEq, Repr

/-- `EventKind`: the store's `insert` distinguishes only the two `RolloverCompleted`
shapes; every other variant of the Rust enum falls into its catch-all arm and is
collapsed here into `OtherEvent`. -/
inductive EventKind where
  | RolloverCompleted (dlc : Option Dlc) (funding_fee : FundingFee)
  | OtherEvent (tag : Nat)
deriving DecidableEq, Repr

structure CfdEvent where
  id : OrderId
  event : EventKind
  timestamp : Nat
deriving DecidableEq, Repr

structure RolloverRow where
  cfd_id : Int
  event_id : Int
  settlement_event_id : BitMexPriceEventId
  refund_timelock : Int
  funding_fee : Int
  rate : FundingRate
  identity : SecretKey
  identity_counterparty : PublicKey
  maker_address : Address
  taker_address : Address
  maker_lock_amount : Int
  taker_lock_amount : Int
  publish_sk : SecretKey
  publish_pk_counterparty : PublicKey
  revocation_secret : SecretKey
  revocation_pk_counterparty : PublicKey
  lock_tx : Transaction
  lock_tx_descriptor : OutputDescriptor
  commit_tx : Transaction
  commit_adaptor_signature : AdaptorSignature
  commit_descriptor : OutputDescriptor
  refund_tx : Transaction
  refund_signature : EcdsaSignature
deriving DecidableEq, Repr

structure RevokedRow where
  cfd_id : Int
  encsig_ours : AdaptorSignature
  publication_pk_theirs : PublicKey
  revocation_sk_theirs : SecretKey
  script_pubkey : Script
  txid : Txid
deriving DecidableEq, Repr

structure CetRow where
  cfd_id : Int
  oracle_event_id : BitMexPriceEventId
  adaptor_sig : AdaptorSignature
  maker_amount : Int
  taker_amount : Int
  n_bits : Int
  range_start : Int
  range_end : Int
  txid : Txid
deriving DecidableEq, Repr

structure Store where
  cfds : List (OrderId × Int)
  rollover_completed_event_data : List RolloverRow
  revoked_commit_transactions : List RevokedRow
  open_cets : List CetRow
deriving DecidableEq, Repr

/-- The SQL sub-query `(select id from cfds where cfds.uuid = $1)`. -/
def resolveCfd (s : Store) (uuid : OrderId) : Option Int :=
  (s.cfds.find? (fun e => decide (e.1 = uuid))).map (fun e => e.2)

/-- Modelled from the spec: `crate::rollover::delete::delete` (the file
`sqlite-db/src/rollover/delete.rs` is not among the provided sources).  Spec §4.4
step 2: delete any pre-existing partial rollover data for this OrderId, to make the
event insert idempotent under replay; this removes every row of the three rollover
tables belonging to the CFD resolved from the OrderId. -/
def deleteRollover (s : Store) (uuid : OrderId) : Store :=
  match resolveCfd s uuid with
  | none => s
  | some cid =>
    { s with
      rollover_completed_event_data :=
        s.rollover_completed_event_data.filter (fun r => decide ¬(r.cfd_id = cid)),
      revoked_commit_transactions :=
        s.revoked_commit_transactions.filter (fun r => decide ¬(r.cfd_id = cid)),
      open_cets := s.open_cets.filter (fun r => decide ¬(r.cfd_id = cid)) }

/-- Fault oracle lookup: by default every sub-insert succeeds with
`rows_affected = 1`. -/
def execFault (faults : List Bool) (k : Nat) : Bool :=
  faults.getD k true

/-- The single row written by `insert_rollover_completed_event_data`, with the u64
amounts cast to i64 exactly as the source does. -/
def rolloverRowOf (cid : Int) (event_id : Int) (dlc : Dlc) (funding_fee : FundingFee) :
    RolloverRow :=
  { cfd_id := cid
    event_id := event_id
    settlement_event_id := dlc.settlement_event_id
    refund_timelock := (dlc.refund_timelock.val : Int)
    funding_fee := u64_as_i64 funding_fee.fee
    rate := funding_fee.rate
    identity := dlc.identity
    identity_counterparty := dlc.identity_counterparty
    maker_address := dlc.maker_address
    taker_address := dlc.taker_address
    maker_lock_amount := u64_as_i64 dlc.maker_lock_amount
    taker_lock_amount := u64_as_i64 dlc.taker_lock_amount
    publish_sk := dlc.publish
    publish_pk_counterparty := dlc.publish_pk_counterparty
    revocation_secret := dlc.revocation
    revocation_pk_counterparty := dlc.revocation_pk_counterparty
    lock_tx := dlc.lock.1
    lock_tx_descriptor := dlc.lock.2
    commit_tx := dlc.commit.1
    commit_adaptor_signature := dlc.commit.2.1
    commit_descriptor := dlc.commit.2.2
    refund_tx := dlc.refund.1
    refund_signature := dlc.refund.2 }

/-- `insert_rollover_completed_event_data` (insert.rs lines 67-152): one INSERT whose
`rows_affected` must be 1.  Returns the store extended by the row together with the
next fault index. -/
def insert_rollover_completed_event_data (faults : List Bool) (k : Nat) (s : Store)
    (event_id : Int) (dlc : Dlc) (funding_fee : FundingFee) (offer_id : OrderId) :
    Except String (Store × Nat) :=
  match resolveCfd s offer_id with
  | none => .error "NOT NULL constraint failed: rollover_completed_event_data.cfd_id"
  | some cid =>
    if execFault faults k then
      .ok ({ s with rollover_completed_event_data :=
        s.rollover_completed_event_data ++ [rolloverRowOf cid event_id dlc funding_fee] },
        k + 1)
    else .error "failed to insert rollover event data"

def revokedRowOf (cid : Int) (revoked : RevokedCommit) : RevokedRow :=
  { cfd_id := cid
    encsig_ours := revoked.encsig_ours
    publication_pk_theirs := revoked.publication_pk_theirs
    revocation_sk_theirs := revoked.revocation_sk_theirs
    script_pubkey := revoked.script_pubkey
    txid := revoked.txid }

/-- `insert_revoked_commit_transaction` (insert.rs lines 154-185). -/
def insert_revoked_commit_transaction (faults : List Bool) (k : Nat)
    (offer_id : OrderId) (s : Store) (revoked : RevokedCommit) :
    Except String (Store × Nat) :=
  match resolveCfd s offer_id with
  | none => .error "NOT NULL constraint failed: revoked_commit_transactions.cfd_id"
  | some cid =>
    if execFault faults k then
      .ok ({ s with revoked_commit_transactions :=
        s.revoked_commit_transactions ++ [revokedRowOf cid revoked] }, k + 1)
    else .error "failed to insert revoked transaction data"

/-- The `for revoked in dlc.revoked_commit` loop of `insert` (insert.rs lines
40-43). -/
def insertRevokedList (faults : List Bool) (offer_id : OrderId) :
    Nat → Store → List RevokedCommit → Except String (Store × Nat)
  | k, s, [] => .ok (s, k)
  | k, s, revoked :: rest =>
    match insert_revoked_commit_transaction faults k offer_id s revoked with
    | .error e => .error e
    | .ok (s2, k2) => insertRevokedList faults offer_id k2 s2 rest

def cetRowOf (cid : Int) (oracle_event_id : BitMexPriceEventId) (cet : Cet) : CetRow :=
  { cfd_id := cid
    oracle_event_id := oracle_event_id
    adaptor_sig := cet.adaptor_sig
    maker_amount := u64_as_i64 cet.maker_amount
    taker_amount := u64_as_i64 cet.taker_amount
    n_bits := u64_as_i64 cet.n_bits
    range_start := u64_as_i64 cet.range_start
    range_end := u64_as_i64 cet.range_end
    txid := cet.txid }

/-- `insert_cet` (insert.rs lines 187-231). -/
def insert_cet (faults : List Bool) (k : Nat) (event_id : BitMexPriceEventId)
    (offer_id : OrderId) (s : Store) (cet : Cet) : Except String (Store × Nat) :=
  match resolveCfd s offer_id with
  | none => .error "NOT NULL constraint failed: open_cets.cfd_id"
  | some cid =>
    if execFault faults k then
      .ok ({ s with open_cets := s.open_cets ++ [cetRowOf cid event_id cet] }, k + 1)
    else .error "failed to insert cet data"

/-- Inner `for cet in cets` loop of `insert` (insert.rs lines 46-48). -/
def insertCetList (faults : List Bool) (event_id : BitMexPriceEventId)
    (offer_id : OrderId) : Nat → Store → List Cet → Except String (Store × Nat)
  | k, s, [] => .ok (s, k)
  | k, s, cet :: rest =>
    match insert_cet faults k event_id offer_id s cet with
    | .error e => .error e
    | .ok (s2, k2) => insertCetList faults event_id offer_id k2 s2 rest

/-- Outer `for (event_id, cets) in dlc.cets` loop of `insert` (insert.rs lines
45-49). -/
def insertCetsAll (faults : List Bool) (offer_id : OrderId) :
    Nat → Store → List (BitMexPriceEventId × List Cet) → Except String (Store × Nat)
  | k, s, [] => .ok (s, k)
  | k, s, (oracle_event_id, cets) :: rest =>
    match insertCetList faults oracle_event_id offer_id k s cets with
    | .error e => .error e
    | .ok (s2, k2) => insertCetsAll faults offer_id k2 s2 rest

/-- `insert` (insert.rs lines 16-64): `RolloverCompleted{dlc: Some}` runs delete plus
the three insert groups inside one inner transaction; `RolloverCompleted{dlc: None}`
is ignored; any other `EventKind` hits the catch-all arm, which only emits
`tracing::error!("Invalid event type. Use append_event function instead")` and then
falls through to `Ok(())` without touching the store. -/
def insert (faults : List Bool) (s : Store) (event_id : Int) (event : CfdEvent) :
    Except String Store :=
  match event.event with
  | .RolloverCompleted (some dlc) funding_fee =>
    let s1 := deleteRollover s event.id
    match insert_rollover_completed_event_data faults 0 s1 event_id dlc funding_fee
        event.id with
    | .error e => .error e
    | .ok (s2, k2) =>
      match insertRevokedList faults event.id k2 s2 dlc.revoked_commit with
      | .error e => .error e
      | .ok (s3, k3) =>
        match insertCetsAll faults event.id k3 s3 dlc.cets with
        | .error e => .error e
        | .ok (s4, _) => .ok s4
  | .RolloverCompleted none _ => .ok s
  | .OtherEvent _ => .ok s

/-- sqlite transaction semantics at the connection level: commit on success, roll the
whole inner transaction back on error. -/
def commitStore (s : Store) : Except String Store → Store
  | .ok s2 => s2
  | .error _ => s

def cetCount (cets : List (BitMexPriceEventId × List Cet)) : Nat :=
  (cets.map (fun ec => ec.2.length)).sum

/-- Total number of sub-inserts performed for a `RolloverCompleted{dlc: Some}`: one
event-data row, one per revoked commit, one per CET across all oracle events. -/
def numSubInserts (d : Dlc) : Nat :=
  1 + d.revoked_commit.length + cetCount d.cets

def flatCetRows (cid : Int) : List (BitMexPriceEventId × List Cet) → List CetRow
  | [] => []
  | (e, cs) :: rest => cs.map (cetRowOf cid e) ++ flatCetRows cid rest

/-- The store produced by a fully successful `RolloverCompleted{dlc: Some}` insert:
the pre-existing rollover data of the CFD is deleted, then exactly one event-data
row, one row per revoked commit and one row per CET are appended. -/
def rolloverInsertResult (s : Store) (uuid : OrderId) (cid : Int) (eid : Int)
    (d : Dlc) (f : FundingFee) : Store :=
  let s1 := deleteRollover s uuid
  { s1 with
    rollover_completed_event_data :=
      s1.rollover_completed_event_data ++ [rolloverRowOf cid eid d f],
    revoked_commit_transactions :=
      s1.revoked_commit_transactions ++ d.revoked_commit.map (revokedRowOf cid),
    open_cets := s1.open_cets ++ flatCetRows cid d.cets }

/-! ### Loading (`load.rs`)

`load` returns `Result<Option<(Dlc, FundingFee)>>` in Rust.  Its only fallible
operations are textual parses of externally-serialized fields (bdk addresses,
descriptors, secp signatures, hex scripts), which are modelled as the identity
embedding and hence total; every repository-level numeric conversion (`as u64`,
`as u32`, `as usize`) is an infallible Rust expression and is modelled exactly, so
the embedded `load` returns `Option`. -/

def rowToRevoked (r : RevokedRow) : RevokedCommit :=
  { encsig_ours := r.encsig_ours
    revocation_sk_theirs := r.revocation_sk_theirs
    publication_pk_theirs := r.publication_pk_theirs
    script_pubkey := r.script_pubkey
    txid := r.txid }

/-- `load_revoked_commit_transactions` (load.rs lines 110-143): selects by `cfd_id`
alone. -/
def load_revoked_commit_transactions (s : Store) (cfd_row_id : Int) :
    List RevokedCommit :=
  (s.revoked_commit_transactions.filter (fun r => decide (r.cfd_id = cfd_row_id))).map
    rowToRevoked

def rowToCet (r : CetRow) : Cet :=
  { maker_amount := i64_as_u64 r.maker_amount
    taker_amount := i64_as_u64 r.taker_amount
    adaptor_sig := r.adaptor_sig
    range_start := i64_as_u64 r.range_start
    range_end := i64_as_u64 r.range_end
    n_bits := i64_as_u64 r.n_bits
    txid := r.txid }

/-- One step of the grouping loop at the end of `load_cets` (load.rs lines 185-195):
push onto an existing key's list, or insert a fresh singleton list. -/
def groupInsert (acc : List (BitMexPriceEventId × List Cet))
    (event : BitMexPriceEventId) (cet : Cet) : List (BitMexPriceEventId × List Cet) :=
  if (acc.find? (fun e => decide (e.1 = event))).isSome then
    acc.map (fun e => if e.1 = event then (e.1, e.2 ++ [cet]) else e)
  else acc ++ [(event, [cet])]

/-- One iteration of the grouping `for` loop: destructure the pair and feed it to
`groupInsert`. -/
def groupStep (acc : List (BitMexPriceEventId × List Cet))
    (ec : BitMexPriceEventId × Cet) : List (BitMexPriceEventId × List Cet) :=
  groupInsert acc ec.1 ec.2

def groupCets (l : List (BitMexPriceEventId × Cet)) :
    List (BitMexPriceEventId × List Cet) :=
  l.foldl groupStep []

/-- `load_cets` (load.rs lines 145-198): selects by `cfd_id` alone, rebuilds each CET
via `as u64` / `as usize` reinterpretation, and groups rows by oracle event id. -/
def load_cets (s : Store) (cfd_row_id : Int) : List (BitMexPriceEventId × List Cet) :=
  groupCets ((s.open_cets.filter (fun r => decide (r.cfd_id = cfd_row_id))).map
    (fun r => (r.oracle_event_id, rowToCet r)))

/-- `load` (load.rs lines 24-108): load revoked commits and CETs by `cfd_id`, then
fetch the scalar row by `(cfd_id, event_id)`; `None` when no scalar row exists. -/
def load (s : Store) (cfd_row_id : Int) (event_row_id : Int) :
    Option (Dlc × FundingFee) :=
  let revoked_commit := load_revoked_commit_transactions s cfd_row_id
  let cets := load_cets s cfd_row_id
  match s.rollover_completed_event_data.find?
      (fun r => decide (r.cfd_id = cfd_row_id) && decide (r.event_id = event_row_id)) with
  | none => none
  | some row =>
    some
      ({ identity := row.identity
         identity_counterparty := row.identity_counterparty
         revocation := row.revocation_secret
         revocation_pk_counterparty := row.revocation_pk_counterparty
         publish := row.publish_sk
         publish_pk_counterparty := row.publish_pk_counterparty
         maker_address := row.maker_address
         taker_address := row.taker_address
         lock := (row.lock_tx, row.lock_tx_descriptor)
         commit := (row.commit_tx, row.commit_adaptor_signature, row.commit_descriptor)
         refund := (row.refund_tx, row.refund_signature)
         cets := cets
         maker_lock_amount := i64_as_u64 row.maker_lock_amount
         taker_lock_amount := i64_as_u64 row.taker_lock_amount
         revoked_commit := revoked_commit
         settlement_event_id := row.settlement_event_id
         refund_timelock := i64_as_u32 row.refund_timelock },
       { fee := i64_as_u64 row.funding_fee
         rate := row.rate })

/-- The `(oracle_event_id, cet)` pairs produced by flattening a `cets` map in
iteration order; the row set written by the CET loops corresponds to these pairs. -/
def flatPairs : List (BitMexPriceEventId × List Cet) → List (BitMexPriceEventId × Cet)
  | [] => []
  | (e, cs) :: rest => cs.map (fun c => (e, c)) ++ flatPairs rest

/-! ### Concrete data for witnesses and counterexamples -/

def cetW : Cet :=
  { adaptor_sig := 21, maker_amount := 100, taker_amount := 200, n_bits := 20,
    range_start := 0, range_end := 1048575, txid := 22 }

def cetW2 : Cet :=
  { adaptor_sig := 23, maker_amount := 300, taker_amount := 0, n_bits := 20,
    range_start := 0, range_end := 7, txid := 24 }

def revW : RevokedCommit :=
  { encsig_ours := 31, publication_pk_theirs := 32, revocation_sk_theirs := 33,
    script_pubkey := 34, txid := 35 }

def dlcW : Dlc :=
  { identity := 1, identity_counterparty := 2, revocation := 3,
    revocation_pk_counterparty := 4, publish := 5, publish_pk_counterparty := 6,
    maker_address := 7, taker_address := 8, lock := (9, 10), commit := (11, 12, 13),
    refund := (14, 15), cets := [(5, [cetW]), (6, [cetW2, cetW])],
    maker_lock_amount := 100, taker_lock_amount := 200, revoked_commit := [revW],
    settlement_event_id := 5, refund_timelock := 24 }

def ffW : FundingFee := { fee := 500, rate := 3 }

def storeW : Store :=
  { cfds := [(10, 1)], rollover_completed_event_data := [],
    revoked_commit_transactions := [], open_cets := [] }

def evW : CfdEvent :=
  { id := 10, event := .RolloverCompleted (some dlcW) ffW, timestamp := 0 }

/-- A `Dlc` whose `cets` map carries an oracle event with an empty CET vector. -/
def dlcE : Dlc := { dlcW with cets := [(5, [])] }

def evE : CfdEvent :=
  { id := 10, event := .RolloverCompleted (some dlcE) ffW, timestamp := 0 }

def insertedStoreE : Store := commitStore storeW (insert [] storeW 7 evE)

/-- A funding fee of `2 ^ 63` satoshis, the smallest amount whose i64 cast is
negative. -/
def ffBig : FundingFee := { fee := ⟨2 ^ 63, by norm_num⟩, rate := 3 }

def evBig : CfdEvent :=
  { id := 10, event := .RolloverCompleted (some dlcW) ffBig, timestamp := 0 }

/-- A stored rollover row in which every persisted amount column (funding fee and
both lock amounts) is negative (corrupt by the spec's reading). -/
def rowNeg : RolloverRow :=
  { cfd_id := 1, event_id := 7, settlement_event_id := 5, refund_timelock := 24,
    funding_fee := -1, rate := 3, identity := 1, identity_counterparty := 2,
    maker_address := 7, taker_address := 8, maker_lock_amount := -2,
    taker_lock_amount := -5, publish_sk := 5, publish_pk_counterparty := 6,
    revocation_secret := 3, revocation_pk_counterparty := 4, lock_tx := 9,
    lock_tx_descriptor := 10, commit_tx := 11, commit_adaptor_signature := 12,
    commit_descriptor := 13, refund_tx := 14, refund_signature := 15 }

/-- A stored CET row of the same CFD whose maker and taker amount columns are
negative. -/
def cetRowNeg : CetRow :=
  { cfd_id := 1, oracle_event_id := 5, adaptor_sig := 21, maker_amount := -3,
    taker_amount := -4, n_bits := 20, range_start := 0, range_end := 7, txid := 22 }

def storeNeg : Store :=
  { cfds := [(10, 1)], rollover_completed_event_data := [rowNeg],
    revoked_commit_transactions := [], open_cets := [cetRowNeg] }

/-- Scalar row for the load-projection example store. -/
def rowC10 : RolloverRow :=
  { cfd_id := 1, event_id := 7, settlement_event_id := 5, refund_timelock := 24,
    funding_fee := 500, rate := 3, identity := 1, identity_counterparty := 2,
    maker_address := 7, taker_address := 8, maker_lock_amount := 100,
    taker_lock_amount := 200, publish_sk := 5, publish_pk_counterparty := 6,
    revocation_secret := 3, revocation_pk_counterparty := 4, lock_tx := 9,
    lock_tx_descriptor := 10, commit_tx := 11, commit_adaptor_signature := 12,
    commit_descriptor := 13, refund_tx := 14, refund_signature := 15 }

def revRow1 : RevokedRow :=
  { cfd_id := 1, encsig_ours := 31, publication_pk_theirs := 32,
    revocation_sk_theirs := 33, script_pubkey := 34, txid := 35 }

def revRow2 : RevokedRow :=
  { cfd_id := 2, encsig_ours := 41, publication_pk_theirs := 42,
    revocation_sk_theirs := 43, script_pubkey := 44, txid := 45 }

def cetRow1 : CetRow :=
  { cfd_id := 1, oracle_event_id := 5, adaptor_sig := 21, maker_amount := 100,
    taker_amount := 200, n_bits := 20, range_start := 0, range_end := 7, txid := 22 }

/-- A CET row of the same CFD attached to a different oracle event (conceptually
written by a different rollover event of the same CFD). -/
def cetRow2 : CetRow :=
  { cfd_id := 1, oracle_event_id := 6, adaptor_sig := 23, maker_amount := 300,
    taker_amount := 0, n_bits := 20, range_start := 0, range_end := 7, txid := 24 }

def cetRow3 : CetRow :=
  { cfd_id := 2, oracle_event_id := 5, adaptor_sig := 25, maker_amount := 1,
    taker_amount := 2, n_bits := 20, range_start := 0, range_end := 7, txid := 26 }

def storeC10 : Store :=
  { cfds := [(10, 1)], rollover_completed_event_data := [rowC10],
    revoked_commit_transactions := [revRow1, revRow2],
    open_cets := [cetRow1, cetRow2, cetRow3] }

/-- The `Dlc` that `load storeC10 1 7` reconstructs. -/
def dlcC10 : Dlc :=
  { identity := 1, identity_counterparty := 2, revocation := 3,
    revocation_pk_counterparty := 4, publish := 5, publish_pk_counterparty := 6,
    maker_address := 7, taker_address := 8, lock := (9, 10), commit := (11, 12, 13),
    refund := (14, 15),
    cets := [(5, [rowToCet cetRow1]), (6, [rowToCet cetRow2])],
    maker_lock_amount := 100, taker_lock_amount := 200,
    revoked_commit := [rowToRevoked revRow1],
    settlement_event_id := 5, refund_timelock := 24 }

def ffC10 : FundingFee := { fee := 500, rate := 3 }

theorem i64_as_u64_u64_as_i64 (n : U64) : i64_as_u64 (u64_as_i64 n) = n := by
  have hn := n.isLt
  apply Fin.ext
  simp only [u64_as_i64, i64_as_u64]
  split <;> omega

theorem i64_as_u32_of_u32 (t : U32) : i64_as_u32 (t.val : Int) = t := by
  have ht := t.isLt
  apply Fin.ext
  simp only [i64_as_u32]
  omega

theorem mem_insertPeer {q p : PeerId} {l : List PeerId} :
    q ∈ insertPeer p l ↔ q = p ∨ q ∈ l := by
  simp only [insertPeer]
  split
  · constructor
    · exact fun h => Or.inr h
    · rintro (rfl | h) <;> assumption
  · simp [List.mem_cons]

theorem mem_removePeer {q p : PeerId} {l : List PeerId} :
    q ∈ removePeer p l ↔ q ∈ l ∧ q ≠ p := by
  simp [removePeer]

theorem not_mem_removePeer_self (p : PeerId) (l : List PeerId) :
    p ∉ removePeer p l := by
  simp [mem_removePeer]

theorem inflightControlsDisjoint_step (s : EndpointState) (m : EndpointMsg)
    (h : inflightControlsDisjoint s) : inflightControlsDisjoint (endpointStep s m) := by
  cases m with
  | Connect a =>
    intro p hp
    simp only [endpointStep, handleConnect] at hp ⊢
    cases hext : extract_peer_id a with
    | none => simp only [hext] at hp ⊢; exact h p hp
    | some peer =>
      simp only [hext] at hp ⊢
      by_cases hc : peer ∈ s.inflight_connections ∨ peer ∈ s.controls
      · rw [if_pos hc] at hp ⊢; exact h p hp
      · rw [if_neg hc] at hp ⊢
        simp only at hp ⊢
        rcases mem_insertPeer.mp hp with rfl | hp2
        · exact fun hmem => hc (Or.inr hmem)
        · exact h p hp2
  | NewConnection q =>
    intro p hp
    simp only [endpointStep, handleNewConnection] at hp ⊢
    have hp2 := mem_removePeer.mp hp
    intro hmem
    rcases mem_insertPeer.mp hmem with rfl | hmem2
    · exact hp2.2 rfl
    · exact h p hp2.1 hmem2
  | FailedToConnect q =>
    intro p hp
    simp only [endpointStep, handleFailedToConnect, drop_connection] at hp ⊢
    intro hmem
    exact h p (mem_removePeer.mp hp).1 (mem_removePeer.mp hmem).1
  | ExistingConnectionFailed q =>
    intro p hp
    simp only [endpointStep, handleExistingConnectionFailed, drop_connection] at hp ⊢
    intro hmem
    exact h p hp (mem_removePeer.mp hmem).1
  | Disconnect q =>
    intro p hp
    simp only [endpointStep, handleDisconnect, drop_connection] at hp ⊢
    intro hmem
    exact h p hp (mem_removePeer.mp hmem).1

theorem inflightControlsDisjoint_run (ms : List EndpointMsg) :
    ∀ s : EndpointState, inflightControlsDisjoint s →
      inflightControlsDisjoint (endpointRun s ms) := by
  induction ms with
  | nil => exact fun s h => h
  | cons m rest ih =>
    intro s h
    exact ih (endpointStep s m) (inflightControlsDisjoint_step s m h)

/-- C8: in every endpoint state reachable by any sequence of Connect, NewConnection,
FailedToConnect, ExistingConnectionFailed and Disconnect messages, no peer id is
simultaneously in the in-flight dial set and the connected-controls map; moreover,
processing either dial outcome (`NewConnection` or `FailedToConnect`) removes that
peer from the in-flight set. -/
theorem endpoint_inflight_controls_invariant (ms : List EndpointMsg) :
    (∀ p : PeerId, p ∈ (endpointRun initialEndpoint ms).inflight_connections →
      p ∉ (endpointRun initialEndpoint ms).controls) ∧
    (∀ (s : EndpointState) (p : PeerId),
      p ∉ (endpointStep s (.NewConnection p)).inflight_connections ∧
      p ∉ (endpointStep s (.FailedToConnect p)).inflight_connections) := by
  constructor
  · exact inflightControlsDisjoint_run ms initialEndpoint (by intro p hp; simp [initialEndpoint] at hp)
  · intro s p
    constructor
    · simp only [endpointStep, handleNewConnection]
      exact not_mem_removePeer_self p s.inflight_connections
    · simp only [endpointStep, handleFailedToConnect, drop_connection]
      exact not_mem_removePeer_self p s.inflight_connections

theorem endpoint_inflight_controls_invariant_witness :
    3 ∉ (endpointRun initialEndpoint
      [EndpointMsg.Connect { base := 0, p2pSuffix := some 3 }]).controls :=
  (endpoint_inflight_controls_invariant
    [EndpointMsg.Connect { base := 0, p2pSuffix := some 3 }]).1 3 (by decide)

/-- C7: case analysis of `Endpoint::handle(Connect)`: a missing `/p2p` suffix yields
`NoPeerIdInAddress`; a peer already in-flight or connected yields `AlreadyConnected`
with the state unchanged; otherwise the call succeeds and the peer is added to the
in-flight set, leaving the other fields untouched. -/
theorem connect_handler_cases (s : EndpointState) (a : Multiaddr) :
    (extract_peer_id a = none →
      handleConnect s a = (s, .error (.NoPeerIdInAddress a))) ∧
    (∀ p : PeerId, extract_peer_id a = some p →
      (p ∈ s.inflight_connections ∨ p ∈ s.controls) →
      handleConnect s a = (s, .error (.AlreadyConnected p))) ∧
    (∀ p : PeerId, extract_peer_id a = some p →
      p ∉ s.inflight_connections → p ∉ s.controls →
      (handleConnect s a).2 = .ok () ∧
      (handleConnect s a).1.inflight_connections = p :: s.inflight_connections ∧
      (handleConnect s a).1.controls = s.controls ∧
      (handleConnect s a).1.listen_addresses = s.listen_addresses) := by
  refine ⟨?_, ?_, ?_⟩
  · intro h
    simp [handleConnect, h]
  · intro p hp hmem
    simp [handleConnect, hp, hmem]
  · intro p hp h1 h2
    have hcond : ¬(p ∈ s.inflight_connections ∨ p ∈ s.controls) := by
      rintro (h | h) <;> [exact h1 h; exact h2 h]
    simp [handleConnect, hp, hcond, insertPeer, h1, h2]

theorem connect_handler_cases_witness :
    handleConnect initialEndpoint { base := 0, p2pSuffix := none } =
      (initialEndpoint, .error (.NoPeerIdInAddress { base := 0, p2pSuffix := none })) ∧
    handleConnect { controls := [], inflight_connections := [3], listen_addresses := [] }
        { base := 0, p2pSuffix := some 3 } =
      ({ controls := [], inflight_connections := [3], listen_addresses := [] },
        .error (.AlreadyConnected 3)) ∧
    (handleConnect initialEndpoint { base := 0, p2pSuffix := some 3 }).2 = .ok () ∧
    (handleConnect initialEndpoint { base := 0, p2pSuffix := some 3 }).1.inflight_connections
      = [3] :=
  ⟨(connect_handler_cases initialEndpoint { base := 0, p2pSuffix := none }).1 rfl,
   (connect_handler_cases
      { controls := [], inflight_connections := [3], listen_addresses := [] }
      { base := 0, p2pSuffix := some 3 }).2.1 3 rfl (Or.inl (by decide)),
   ((connect_handler_cases initialEndpoint { base := 0, p2pSuffix := some 3 }).2.2
      3 rfl (by decide) (by decide)).1,
   ((connect_handler_cases initialEndpoint { base := 0, p2pSuffix := some 3 }).2.2
      3 rfl (by decide) (by decide)).2.1⟩

theorem find?_key_none {m : List (String × Handler)} {proto : String}
    (h : proto ∉ m.map Prod.fst) :
    m.find? (fun e => decide (e.1 = proto)) = none := by
  rw [List.find?_eq_none]
  intro e hmem
  simp only [decide_eq_true_eq]
  intro heq
  exact h (heq ▸ List.mem_map_of_mem Prod.fst hmem)

theorem verifyUniqueGo_nodup :
    ∀ (rest acc : List (String × Handler)),
      (acc.map Prod.fst ++ rest.map Prod.fst).Nodup →
      verifyUniqueGo acc rest = some (acc ++ rest) := by
  intro rest
  induction rest with
  | nil => intro acc _; simp [verifyUniqueGo]
  | cons e rest ih =>
    intro acc hnodup
    obtain ⟨p, h⟩ := e
    have hp : p ∉ acc.map Prod.fst := by
      rw [List.nodup_append] at hnodup
      exact fun hmem => hnodup.2.2 hmem (by simp)
    simp only [verifyUniqueGo, insertHandler, find?_key_none hp, Option.isSome_none,
      Bool.false_eq_true, if_false]
    have hnodup2 : ((acc ++ [(p, h)]).map Prod.fst ++ rest.map Prod.fst).Nodup := by
      simpa [List.append_assoc] using hnodup
    rw [ih (acc ++ [(p, h)]) hnodup2]
    simp

theorem verifyUniqueGo_dup :
    ∀ (rest acc : List (String × Handler)),
      (acc.map Prod.fst).Nodup →
      ¬(acc.map Prod.fst ++ rest.map Prod.fst).Nodup →
      verifyUniqueGo acc rest = none := by
  intro rest
  induction rest with
  | nil => intro acc hacc hdup; simp at hdup; exact absurd hacc hdup
  | cons e rest ih =>
    intro acc hacc hdup
    obtain ⟨p, h⟩ := e
    by_cases hp : p ∈ acc.map Prod.fst
    · obtain ⟨x, hxmem, hx⟩ := List.exists_of_mem_map hp
      have hfind : (acc.find? (fun e => decide (e.1 = p))).isSome := by
        rw [List.find?_isSome]
        exact ⟨x, hxmem, by simp [hx]⟩
      obtain ⟨y, hy⟩ := Option.isSome_iff_exists.mp hfind
      simp [verifyUniqueGo, insertHandler, hy]
    · have hnodup2 : ((acc ++ [(p, h)]).map Prod.fst).Nodup := by
        rw [List.map_append, List.nodup_append]
        refine ⟨hacc, by simp, ?_⟩
        intro a ha hamem
        simp only [List.map_cons, List.map_nil, List.mem_singleton] at hamem
        subst hamem
        exact hp ha
      have hdup2 : ¬((acc ++ [(p, h)]).map Prod.fst ++ rest.map Prod.fst).Nodup := by
        intro hcontra
        exact hdup (by simpa [List.append_assoc] using hcontra)
      simp only [verifyUniqueGo, insertHandler, find?_key_none hp, Option.isSome_none,
        Bool.false_eq_true, if_false]
      exact ih (acc ++ [(p, h)]) hnodup2 hdup2

theorem lookupHandler_of_mem :
    ∀ (hs : List (String × Handler)) (proto : String) (h : Handler),
      (hs.map Prod.fst).Nodup → (proto, h) ∈ hs → lookupHandler hs proto = some h := by
  intro hs
  induction hs with
  | nil => intro proto h _ hmem; simp at hmem
  | cons e rest ih =>
    intro proto h hnodup hmem
    obtain ⟨q, g⟩ := e
    simp only [List.map_cons, List.nodup_cons] at hnodup
    rw [List.mem_cons] at hmem
    rcases hmem with heq | hmem
    · rw [Prod.ext_iff] at heq
      obtain ⟨h1, h2⟩ := heq
      subst h1; subst h2
      simp [lookupHandler, List.find?]
    · have hq : ¬(q = proto) := by
        intro hqp
        exact hnodup.1 (hqp ▸ List.mem_map_of_mem Prod.fst hmem)
      have : lookupHandler ((q, g) :: rest) proto = lookupHandler rest proto := by
        simp [lookupHandler, List.find?, hq]
      rw [this]
      exact ih proto h hnodup.2 hmem

/-- C9: a handler registry with two entries sharing a protocol id fails endpoint
construction (the `debug_assert!` in `verify_unique_handlers` fires); with unique
protocol ids construction succeeds, the resulting registry holds exactly the declared
entries, and looking up any declared protocol yields exactly the one handler that was
given for it. -/
theorem verify_unique_handlers_correct (hs : List (String × Handler)) :
    (¬(hs.map Prod.fst).Nodup → verify_unique_handlers hs = none) ∧
    ((hs.map Prod.fst).Nodup →
      verify_unique_handlers hs = some hs ∧
      ∀ proto h, (proto, h) ∈ hs → lookupHandler hs proto = some h) := by
  constructor
  · intro hdup
    exact verifyUniqueGo_dup hs [] (by simp) (by simpa using hdup)
  · intro hnodup
    refine ⟨?_, fun proto h hmem => lookupHandler_of_mem hs proto h hnodup hmem⟩
    simpa [verify_unique_handlers] using verifyUniqueGo_nodup hs [] (by simpa using hnodup)

theorem verify_unique_handlers_correct_witness :
    verify_unique_handlers [("a", 1), ("a", 2)] = none ∧
    verify_unique_handlers [("a", 1), ("b", 2)] = some [("a", 1), ("b", 2)] ∧
    lookupHandler [("a", 1), ("b", 2)] "b" = some 2 :=
  ⟨(verify_unique_handlers_correct [("a", 1), ("a", 2)]).1 (by decide),
   ((verify_unique_handlers_correct [("a", 1), ("b", 2)]).2 (by decide)).1,
   ((verify_unique_handlers_correct [("a", 1), ("b", 2)]).2 (by decide)).2 "b" 2
     (by decide)⟩

/-- C6 (code-bug evidence): receiving `IncProtocolMsg` while no contract setup is in
progress makes the taker controller panic with message "whoops", aborting the actor
task, instead of reporting a typed protocol error and continuing. -/
theorem inc_protocol_msg_panics_without_setup (msg : SetupMsg) :
    handleIncProtocolMsg none msg = .panicked "whoops" := rfl

/-! ### Characterization of the insert transaction -/

theorem execFault_nil (k : Nat) : execFault [] k = true := by
  simp [execFault]

theorem deleteRollover_cfds (s : Store) (uuid : OrderId) :
    (deleteRollover s uuid).cfds = s.cfds := by
  unfold deleteRollover
  cases resolveCfd s uuid <;> rfl

theorem resolveCfd_congr {s s2 : Store} (uuid : OrderId) (h : s2.cfds = s.cfds) :
    resolveCfd s2 uuid = resolveCfd s uuid := by
  simp [resolveCfd, h]

theorem insertRevokedList_ok (faults : List Bool) (uuid : OrderId) (cid : Int) :
    ∀ (rs : List RevokedCommit) (k : Nat) (s : Store),
      resolveCfd s uuid = some cid →
      (∀ j, j < rs.length → execFault faults (k + j) = true) →
      insertRevokedList faults uuid k s rs =
        .ok ({ s with revoked_commit_transactions :=
          s.revoked_commit_transactions ++ rs.map (revokedRowOf cid) }, k + rs.length) := by
  intro rs
  induction rs with
  | nil =>
    intro k s hres _
    simp [insertRevokedList]
  | cons r rest ih =>
    intro k s hres hf
    have hk : execFault faults k = true := by simpa using hf 0 (by simp)
    have hf2 : ∀ j, j < rest.length → execFault faults (k + 1 + j) = true := by
      intro j hj
      rw [show k + 1 + j = k + (j + 1) by omega]
      exact hf (j + 1) (by simp; omega)
    simp only [insertRevokedList, insert_revoked_commit_transaction, hres, hk, if_true]
    rw [ih (k + 1) { s with revoked_commit_transactions :=
      s.revoked_commit_transactions ++ [revokedRowOf cid r] } hres hf2]
    rw [show k + 1 + rest.length = k + (r :: rest).length by simp only [List.length_cons]; omega]
    simp [List.append_assoc]

theorem insertRevokedList_err (faults : List Bool) (uuid : OrderId) (cid : Int) :
    ∀ (rs : List RevokedCommit) (k : Nat) (s : Store),
      resolveCfd s uuid = some cid →
      (∃ j, j < rs.length ∧ execFault faults (k + j) = false) →
      ∃ e, insertRevokedList faults uuid k s rs = .error e := by
  intro rs
  induction rs with
  | nil =>
    intro k s _ h
    obtain ⟨j, hj, _⟩ := h
    simp at hj
  | cons r rest ih =>
    intro k s hres h
    obtain ⟨j, hj, hjf⟩ := h
    by_cases hk : execFault faults k = true
    · have hj0 : j ≠ 0 := by
        rintro rfl
        rw [Nat.add_zero] at hjf
        rw [hk] at hjf
        simp at hjf
      simp only [insertRevokedList, insert_revoked_commit_transaction, hres, hk, if_true]
      exact ih (k + 1) _ hres
        ⟨j - 1, by simp at hj; omega, by rw [show k + 1 + (j - 1) = k + j by omega]; exact hjf⟩
    · have hk2 : execFault faults k = false := by simpa using hk
      refine ⟨"failed to insert revoked transaction data", ?_⟩
      simp [insertRevokedList, insert_revoked_commit_transaction, hres, hk2]

theorem insertCetList_ok (faults : List Bool) (eoracle : BitMexPriceEventId)
    (uuid : OrderId) (cid : Int) :
    ∀ (cs : List Cet) (k : Nat) (s : Store),
      resolveCfd s uuid = some cid →
      (∀ j, j < cs.length → execFault faults (k + j) = true) →
      insertCetList faults eoracle uuid k s cs =
        .ok ({ s with open_cets := s.open_cets ++ cs.map (cetRowOf cid eoracle) },
          k + cs.length) := by
  intro cs
  induction cs with
  | nil =>
    intro k s hres _
    simp [insertCetList]
  | cons c rest ih =>
    intro k s hres hf
    have hk : execFault faults k = true := by simpa using hf 0 (by simp)
    have hf2 : ∀ j, j < rest.length → execFault faults (k + 1 + j) = true := by
      intro j hj
      rw [show k + 1 + j = k + (j + 1) by omega]
      exact hf (j + 1) (by simp; omega)
    simp only [insertCetList, insert_cet, hres, hk, if_true]
    rw [ih (k + 1) { s with open_cets :=
      s.open_cets ++ [cetRowOf cid eoracle c] } hres hf2]
    rw [show k + 1 + rest.length = k + (c :: rest).length by simp only [List.length_cons]; omega]
    simp [List.append_assoc]

theorem insertCetList_err (faults : List Bool) (eoracle : BitMexPriceEventId)
    (uuid : OrderId) (cid : Int) :
    ∀ (cs : List Cet) (k : Nat) (s : Store),
      resolveCfd s uuid = some cid →
      (∃ j, j < cs.length ∧ execFault faults (k + j) = false) →
      ∃ e, insertCetList faults eoracle uuid k s cs = .error e := by
  intro cs
  induction cs with
  | nil =>
    intro k s _ h
    obtain ⟨j, hj, _⟩ := h
    simp at hj
  | cons c rest ih =>
    intro k s hres h
    obtain ⟨j, hj, hjf⟩ := h
    by_cases hk : execFault faults k = true
    · have hj0 : j ≠ 0 := by
        rintro rfl
        rw [Nat.add_zero] at hjf
        rw [hk] at hjf
        simp at hjf
      simp only [insertCetList, insert_cet, hres, hk, if_true]
      exact ih (k + 1) _ hres
        ⟨j - 1, by simp at hj; omega, by rw [show k + 1 + (j - 1) = k + j by omega]; exact hjf⟩
    · have hk2 : execFault faults k = false := by simpa using hk
      refine ⟨"failed to insert cet data", ?_⟩
      simp [insertCetList, insert_cet, hres, hk2]

theorem insertCetsAll_ok (faults : List Bool) (uuid : OrderId) (cid : Int) :
    ∀ (cets : List (BitMexPriceEventId × List Cet)) (k : Nat) (s : Store),
      resolveCfd s uuid = some cid →
      (∀ j, j < cetCount cets → execFault faults (k + j) = true) →
      insertCetsAll faults uuid k s cets =
        .ok ({ s with open_cets := s.open_cets ++ flatCetRows cid cets },
          k + cetCount cets) := by
  intro cets
  induction cets with
  | nil =>
    intro k s hres _
    simp [insertCetsAll, cetCount, flatCetRows]
  | cons ec rest ih =>
    intro k s hres hf
    obtain ⟨e, cs⟩ := ec
    have hcount : cetCount ((e, cs) :: rest) = cs.length + cetCount rest := by
      simp [cetCount]
    have hf1 : ∀ j, j < cs.length → execFault faults (k + j) = true := by
      intro j hj
      exact hf j (by rw [hcount]; omega)
    have hf2 : ∀ j, j < cetCount rest → execFault faults (k + cs.length + j) = true := by
      intro j hj
      rw [show k + cs.length + j = k + (cs.length + j) by omega]
      exact hf (cs.length + j) (by rw [hcount]; omega)
    have hstep := insertCetList_ok faults e uuid cid cs k s hres hf1
    simp only [insertCetsAll, hstep]
    have hind := ih (k + cs.length)
      { s with open_cets := s.open_cets ++ List.map (cetRowOf cid e) cs } hres hf2
    rw [hind]
    rw [show k + cs.length + cetCount rest = k + cetCount ((e, cs) :: rest) by
      rw [hcount]; omega]
    simp [flatCetRows, List.append_assoc]

theorem insertCetsAll_err (faults : List Bool) (uuid : OrderId) (cid : Int) :
    ∀ (cets : List (BitMexPriceEventId × List Cet)) (k : Nat) (s : Store),
      resolveCfd s uuid = some cid →
      (∃ j, j < cetCount cets ∧ execFault faults (k + j) = false) →
      ∃ e, insertCetsAll faults uuid k s cets = .error e := by
  intro cets
  induction cets with
  | nil =>
    intro k s _ h
    obtain ⟨j, hj, _⟩ := h
    simp [cetCount] at hj
  | cons ec rest ih =>
    intro k s hres h
    obtain ⟨j, hj, hjf⟩ := h
    obtain ⟨e, cs⟩ := ec
    have hcount : cetCount ((e, cs) :: rest) = cs.length + cetCount rest := by
      simp [cetCount]
    rw [hcount] at hj
    by_cases hall : ∀ i, i < cs.length → execFault faults (k + i) = true
    · have hjge : cs.length ≤ j := by
        by_contra hlt
        push_neg at hlt
        rw [hall j hlt] at hjf
        simp at hjf
      have hstep := insertCetList_ok faults e uuid cid cs k s hres hall
      simp only [insertCetsAll, hstep]
      exact ih (k + cs.length) _ hres
        ⟨j - cs.length, by omega,
          by rw [show k + cs.length + (j - cs.length) = k + j by omega]; exact hjf⟩
    · push_neg at hall
      obtain ⟨i, hi, hif⟩ := hall
      obtain ⟨e2, herr⟩ := insertCetList_err faults e uuid cid cs k s hres
        ⟨i, hi, by simpa using hif⟩
      refine ⟨e2, ?_⟩
      simp [insertCetsAll, herr]

theorem numSubInserts_pos (d : Dlc) : 0 < numSubInserts d := by
  unfold numSubInserts
  omega

theorem insert_rollover_ok (faults : List Bool) (s : Store) (eid : Int) (uuid : OrderId)
    (ts : Nat) (d : Dlc) (f : FundingFee) (cid : Int)
    (hres : resolveCfd s uuid = some cid)
    (hf : ∀ k, k < numSubInserts d → execFault faults k = true) :
    insert faults s eid
        { id := uuid, event := .RolloverCompleted (some d) f, timestamp := ts } =
      .ok (rolloverInsertResult s uuid cid eid d f) := by
  have hres1 : resolveCfd (deleteRollover s uuid) uuid = some cid := by
    rw [resolveCfd_congr uuid (deleteRollover_cfds s uuid)]
    exact hres
  have h0 : execFault faults 0 = true := hf 0 (numSubInserts_pos d)
  have hrev : ∀ j, j < d.revoked_commit.length → execFault faults (1 + j) = true :=
    fun j hj => hf (1 + j) (by unfold numSubInserts; omega)
  have hcet : ∀ j, j < cetCount d.cets →
      execFault faults (1 + d.revoked_commit.length + j) = true :=
    fun j hj => hf (1 + d.revoked_commit.length + j) (by unfold numSubInserts; omega)
  have hstep2 := insertRevokedList_ok faults uuid cid d.revoked_commit 1
    { deleteRollover s uuid with rollover_completed_event_data :=
        (deleteRollover s uuid).rollover_completed_event_data ++ [rolloverRowOf cid eid d f] }
    hres1 hrev
  have hstep3 := insertCetsAll_ok faults uuid cid d.cets (1 + d.revoked_commit.length)
    { deleteRollover s uuid with
        rollover_completed_event_data :=
          (deleteRollover s uuid).rollover_completed_event_data ++ [rolloverRowOf cid eid d f],
        revoked_commit_transactions :=
          (deleteRollover s uuid).revoked_commit_transactions ++
            List.map (revokedRowOf cid) d.revoked_commit }
    hres1 hcet
  simp only [insert, insert_rollover_completed_event_data, hres1, h0, if_true,
    Nat.zero_add, hstep2, hstep3]
  rfl

theorem insert_rollover_err (faults : List Bool) (s : Store) (eid : Int) (uuid : OrderId)
    (ts : Nat) (d : Dlc) (f : FundingFee) (cid : Int)
    (hres : resolveCfd s uuid = some cid)
    (k0 : Nat) (hk0 : k0 < numSubInserts d) (hkf : execFault faults k0 = false) :
    ∃ e, insert faults s eid
        { id := uuid, event := .RolloverCompleted (some d) f, timestamp := ts } =
      .error e := by
  have hres1 : resolveCfd (deleteRollover s uuid) uuid = some cid := by
    rw [resolveCfd_congr uuid (deleteRollover_cfds s uuid)]
    exact hres
  by_cases h0 : execFault faults 0 = true
  · have hk00 : k0 ≠ 0 := by
      rintro rfl
      rw [h0] at hkf
      simp at hkf
    by_cases hrevall : ∀ j, j < d.revoked_commit.length → execFault faults (1 + j) = true
    · have hstep2 := insertRevokedList_ok faults uuid cid d.revoked_commit 1
        { deleteRollover s uuid with rollover_completed_event_data :=
            (deleteRollover s uuid).rollover_completed_event_data ++
              [rolloverRowOf cid eid d f] }
        hres1 hrevall
      by_cases hcetall : ∀ j, j < cetCount d.cets →
          execFault faults (1 + d.revoked_commit.length + j) = true
      · exfalso
        unfold numSubInserts at hk0
        rcases Nat.lt_or_ge k0 (1 + d.revoked_commit.length) with hlt | hge
        · have hj := hrevall (k0 - 1) (by omega)
          rw [show 1 + (k0 - 1) = k0 by omega] at hj
          rw [hj] at hkf
          simp at hkf
        · have hj := hcetall (k0 - (1 + d.revoked_commit.length)) (by omega)
          rw [show 1 + d.revoked_commit.length + (k0 - (1 + d.revoked_commit.length)) = k0
            by omega] at hj
          rw [hj] at hkf
          simp at hkf
      · push_neg at hcetall
        obtain ⟨i, hi, hif⟩ := hcetall
        obtain ⟨e2, herr⟩ := insertCetsAll_err faults uuid cid d.cets
          (1 + d.revoked_commit.length)
          { deleteRollover s uuid with
              rollover_completed_event_data :=
                (deleteRollover s uuid).rollover_completed_event_data ++
                  [rolloverRowOf cid eid d f],
              revoked_commit_transactions :=
                (deleteRollover s uuid).revoked_commit_transactions ++
                  List.map (revokedRowOf cid) d.revoked_commit }
          hres1 ⟨i, hi, by simpa using hif⟩
        refine ⟨e2, ?_⟩
        simp only [insert, insert_rollover_completed_event_data, hres1, h0, if_true,
          Nat.zero_add, hstep2, herr]
    · push_neg at hrevall
      obtain ⟨i, hi, hif⟩ := hrevall
      obtain ⟨e2, herr⟩ := insertRevokedList_err faults uuid cid d.revoked_commit 1
        { deleteRollover s uuid with rollover_completed_event_data :=
            (deleteRollover s uuid).rollover_completed_event_data ++
              [rolloverRowOf cid eid d f] }
        hres1 ⟨i, hi, by simpa using hif⟩
      refine ⟨e2, ?_⟩
      simp only [insert, insert_rollover_completed_event_data, hres1, h0, if_true,
        Nat.zero_add, herr]
  · have h0f : execFault faults 0 = false := by simpa using h0
    refine ⟨"failed to insert rollover event data", ?_⟩
    simp [insert, insert_rollover_completed_event_data, hres1, h0f]

theorem commitStore_of_error {s : Store} {r : Except String Store}
    (h : ∃ e, r = .error e) : commitStore s r = s := by
  obtain ⟨e, rfl⟩ := h
  rfl

theorem toOption_of_error {r : Except String Store}
    (h : ∃ e, r = .error e) : r.toOption = none := by
  obtain ⟨e, rfl⟩ := h
  rfl

/-! ### Characterization of load -/

theorem find?_append_none {α : Type} (l1 l2 : List α) (p : α → Bool)
    (h : ∀ x ∈ l1, p x = false) : (l1 ++ l2).find? p = l2.find? p := by
  induction l1 with
  | nil => rfl
  | cons a rest ih =>
    have ha := h a (List.mem_cons_self a rest)
    rw [List.cons_append, List.find?_cons_of_neg _ (by simp [ha])]
    exact ih fun x hx => h x (List.mem_cons_of_mem a hx)

theorem filter_none {α : Type} (l : List α) (p : α → Bool)
    (h : ∀ x ∈ l, p x = false) : l.filter p = [] := by
  induction l with
  | nil => rfl
  | cons a rest ih =>
    rw [List.filter_cons, h a (List.mem_cons_self a rest)]
    simp only [Bool.false_eq_true, if_false]
    exact ih fun x hx => h x (List.mem_cons_of_mem a hx)

theorem filter_all {α : Type} (l : List α) (p : α → Bool)
    (h : ∀ x ∈ l, p x = true) : l.filter p = l := by
  induction l with
  | nil => rfl
  | cons a rest ih =>
    rw [List.filter_cons, h a (List.mem_cons_self a rest)]
    simp only [if_true]
    rw [ih fun x hx => h x (List.mem_cons_of_mem a hx)]

theorem map_self_of_eq {α : Type} (l : List α) (g : α → α)
    (h : ∀ x ∈ l, g x = x) : l.map g = l := by
  induction l with
  | nil => rfl
  | cons a rest ih =>
    rw [List.map_cons, h a (List.mem_cons_self a rest),
      ih fun x hx => h x (List.mem_cons_of_mem a hx)]

theorem map_congr_mem {α β : Type} (l : List α) (f g : α → β)
    (h : ∀ x ∈ l, f x = g x) : l.map f = l.map g := by
  induction l with
  | nil => rfl
  | cons a rest ih =>
    rw [List.map_cons, List.map_cons, h a (List.mem_cons_self a rest),
      ih fun x hx => h x (List.mem_cons_of_mem a hx)]

theorem find?_fst_none {α β : Type} [DecidableEq α] {m : List (α × β)} {k : α}
    (h : k ∉ m.map Prod.fst) : m.find? (fun e => decide (e.1 = k)) = none := by
  rw [List.find?_eq_none]
  intro x hx
  simp only [decide_eq_true_eq]
  exact fun heq => h (heq ▸ List.mem_map_of_mem Prod.fst hx)

theorem rowToRevoked_revokedRowOf (cid : Int) (r : RevokedCommit) :
    rowToRevoked (revokedRowOf cid r) = r := rfl

theorem rowToCet_cetRowOf (cid : Int) (e : BitMexPriceEventId) (c : Cet) :
    rowToCet (cetRowOf cid e c) = c := by
  obtain ⟨a, m, t, n, rs, re, tx⟩ := c
  simp [rowToCet, cetRowOf, i64_as_u64_u64_as_i64]

theorem map_rowToRevoked_revokedRowOf (cid : Int) (rs : List RevokedCommit) :
    (rs.map (revokedRowOf cid)).map rowToRevoked = rs := by
  rw [List.map_map]
  have h : rowToRevoked ∘ revokedRowOf cid = id := funext fun r => rfl
  rw [h, List.map_id]

theorem flatCetRows_cfd_id (cid : Int) :
    ∀ cets : List (BitMexPriceEventId × List Cet),
      ∀ r ∈ flatCetRows cid cets, r.cfd_id = cid := by
  intro cets
  induction cets with
  | nil =>
    intro r hr
    simp [flatCetRows] at hr
  | cons ec rest ih =>
    intro r hr
    obtain ⟨e, cs⟩ := ec
    simp only [flatCetRows, List.mem_append] at hr
    rcases hr with hr | hr
    · obtain ⟨c, _, rfl⟩ := List.exists_of_mem_map hr
      rfl
    · exact ih r hr

theorem flatCetRows_map_pairs (cid : Int) :
    ∀ cets : List (BitMexPriceEventId × List Cet),
      (flatCetRows cid cets).map (fun r => (r.oracle_event_id, rowToCet r))
        = flatPairs cets := by
  intro cets
  induction cets with
  | nil => rfl
  | cons ec rest ih =>
    obtain ⟨e, cs⟩ := ec
    simp only [flatCetRows, flatPairs, List.map_append, ih, List.map_map]
    congr 1
    apply map_congr_mem
    intro c _
    show ((cetRowOf cid e c).oracle_event_id, rowToCet (cetRowOf cid e c)) = (e, c)
    rw [rowToCet_cetRowOf]
    rfl

theorem foldl_groupStep_same_key (cs : List Cet) :
    ∀ (done : List (BitMexPriceEventId × List Cet)) (e : BitMexPriceEventId)
      (l : List Cet), e ∉ done.map Prod.fst →
      (cs.map (fun c => (e, c))).foldl groupStep (done ++ [(e, l)])
        = done ++ [(e, l ++ cs)] := by
  induction cs with
  | nil =>
    intro done e l _
    simp
  | cons c rest ih =>
    intro done e l he
    have hfalse : ∀ x ∈ done, (fun x => decide (x.1 = e)) x = false := by
      intro x hx
      rw [decide_eq_false_iff_not]
      exact fun hxe => he (hxe ▸ List.mem_map_of_mem Prod.fst hx)
    have hfind : ((done ++ [(e, l)]).find? (fun x => decide (x.1 = e))).isSome := by
      rw [find?_append_none done [(e, l)] _ hfalse]
      simp [List.find?]
    have hstep : groupStep (done ++ [(e, l)]) (e, c) = done ++ [(e, l ++ [c])] := by
      simp only [groupStep, groupInsert, hfind, if_true]
      rw [List.map_append]
      congr 1
      · apply map_self_of_eq
        intro x hx
        rw [if_neg]
        exact fun hxe => he (hxe ▸ List.mem_map_of_mem Prod.fst hx)
      · simp
    rw [List.map_cons, List.foldl_cons, hstep, ih done e (l ++ [c]) he]
    simp [List.append_assoc]

theorem foldl_groupStep_flatPairs :
    ∀ (cets : List (BitMexPriceEventId × List Cet))
      (acc : List (BitMexPriceEventId × List Cet)),
      (∀ k ∈ cets.map Prod.fst, k ∉ acc.map Prod.fst) →
      (cets.map Prod.fst).Nodup →
      (∀ ec ∈ cets, ec.2 ≠ []) →
      (flatPairs cets).foldl groupStep acc = acc ++ cets := by
  intro cets
  induction cets with
  | nil =>
    intro acc _ _ _
    simp [flatPairs]
  | cons ec rest ih =>
    intro acc hdisj hnodup hne
    obtain ⟨e, cs⟩ := ec
    obtain ⟨c0, cs2, rfl⟩ : ∃ c0 cs2, cs = c0 :: cs2 := by
      cases cs with
      | nil => exact absurd rfl (hne (e, []) (by simp))
      | cons c0 cs2 => exact ⟨c0, cs2, rfl⟩
    have he : e ∉ acc.map Prod.fst := hdisj e (by simp)
    have hstep0 : groupStep acc (e, c0) = acc ++ [(e, [c0])] := by
      simp only [groupStep, groupInsert, find?_fst_none he, Option.isSome_none,
        Bool.false_eq_true, if_false]
    simp only [flatPairs, List.map_cons, List.cons_append, List.foldl_cons,
      List.foldl_append, hstep0]
    rw [foldl_groupStep_same_key cs2 acc e [c0] he]
    have hne2 : e ∉ (rest.map Prod.fst) := by
      simp only [List.map_cons, List.nodup_cons] at hnodup
      exact hnodup.1
    have hdisj2 : ∀ k ∈ rest.map Prod.fst, k ∉ (acc ++ [(e, c0 :: cs2)]).map Prod.fst := by
      intro k hk
      rw [List.map_append, List.mem_append]
      rintro (hka | hke)
      · exact hdisj k (by simp [hk]) hka
      · simp only [List.map_cons, List.map_nil, List.mem_singleton] at hke
        exact hne2 (hke ▸ hk)
    have hnodup2 : (rest.map Prod.fst).Nodup := by
      simp only [List.map_cons, List.nodup_cons] at hnodup
      exact hnodup.2
    rw [show ([c0] ++ cs2) = c0 :: cs2 from rfl]
    rw [ih (acc ++ [(e, c0 :: cs2)]) hdisj2 hnodup2
      (fun x hx => hne x (List.mem_cons_of_mem (e, c0 :: cs2) hx))]
    simp

theorem groupCets_flatPairs (cets : List (BitMexPriceEventId × List Cet))
    (hnodup : (cets.map Prod.fst).Nodup) (hne : ∀ ec ∈ cets, ec.2 ≠ []) :
    groupCets (flatPairs cets) = cets := by
  unfold groupCets
  rw [foldl_groupStep_flatPairs cets [] (by simp) hnodup hne]
  simp

theorem deleteRollover_unfold (s : Store) (uuid : OrderId) (cid : Int)
    (hres : resolveCfd s uuid = some cid) :
    deleteRollover s uuid =
      { s with
        rollover_completed_event_data :=
          s.rollover_completed_event_data.filter (fun r => decide ¬(r.cfd_id = cid)),
        revoked_commit_transactions :=
          s.revoked_commit_transactions.filter (fun r => decide ¬(r.cfd_id = cid)),
        open_cets := s.open_cets.filter (fun r => decide ¬(r.cfd_id = cid)) } := by
  simp [deleteRollover, hres]

theorem rolloverInsertResult_find (s : Store) (uuid : OrderId) (cid : Int) (eid : Int)
    (d : Dlc) (f : FundingFee) (hres : resolveCfd s uuid = some cid) :
    (rolloverInsertResult s uuid cid eid d f).rollover_completed_event_data.find?
        (fun r => decide (r.cfd_id = cid) && decide (r.event_id = eid))
      = some (rolloverRowOf cid eid d f) := by
  simp only [rolloverInsertResult, deleteRollover_unfold s uuid cid hres]
  rw [find?_append_none]
  · simp [List.find?, rolloverRowOf]
  · intro x hx
    rw [List.mem_filter] at hx
    have hne := hx.2
    rw [decide_eq_true_eq] at hne
    simp [hne]

theorem rolloverInsertResult_revoked (s : Store) (uuid : OrderId) (cid : Int)
    (eid : Int) (d : Dlc) (f : FundingFee) (hres : resolveCfd s uuid = some cid) :
    load_revoked_commit_transactions (rolloverInsertResult s uuid cid eid d f) cid
      = d.revoked_commit := by
  simp only [load_revoked_commit_transactions, rolloverInsertResult,
    deleteRollover_unfold s uuid cid hres]
  rw [List.filter_append]
  rw [filter_none _ _ (by
    intro x hx
    rw [List.mem_filter] at hx
    have hne := hx.2
    rw [decide_eq_true_eq] at hne
    simp [hne])]
  rw [filter_all _ _ (by
    intro x hx
    obtain ⟨r, _, rfl⟩ := List.exists_of_mem_map hx
    simp [revokedRowOf])]
  rw [List.nil_append, map_rowToRevoked_revokedRowOf]

theorem rolloverInsertResult_cets (s : Store) (uuid : OrderId) (cid : Int)
    (eid : Int) (d : Dlc) (f : FundingFee) (hres : resolveCfd s uuid = some cid)
    (hnodup : (d.cets.map Prod.fst).Nodup) (hne : ∀ ec ∈ d.cets, ec.2 ≠ []) :
    load_cets (rolloverInsertResult s uuid cid eid d f) cid = d.cets := by
  simp only [load_cets, rolloverInsertResult, deleteRollover_unfold s uuid cid hres]
  rw [List.filter_append]
  rw [filter_none _ _ (by
    intro x hx
    rw [List.mem_filter] at hx
    have hne2 := hx.2
    rw [decide_eq_true_eq] at hne2
    simp [hne2])]
  rw [filter_all _ _ (by
    intro x hx
    rw [decide_eq_true_eq]
    exact flatCetRows_cfd_id cid d.cets x hx)]
  rw [List.nil_append, flatCetRows_map_pairs, groupCets_flatPairs d.cets hnodup hne]

theorem load_rolloverInsertResult (s : Store) (uuid : OrderId) (cid : Int) (eid : Int)
    (d : Dlc) (f : FundingFee) (hres : resolveCfd s uuid = some cid)
    (hnodup : (d.cets.map Prod.fst).Nodup) (hne : ∀ ec ∈ d.cets, ec.2 ≠ []) :
    load (rolloverInsertResult s uuid cid eid d f) cid eid = some (d, f) := by
  simp only [load, rolloverInsertResult_find s uuid cid eid d f hres,
    rolloverInsertResult_revoked s uuid cid eid d f hres,
    rolloverInsertResult_cets s uuid cid eid d f hres hnodup hne]
  simp only [rolloverRowOf, i64_as_u64_u64_as_i64, i64_as_u32_of_u32]

theorem groupInsert_mem_self (acc : List (BitMexPriceEventId × List Cet))
    (e : BitMexPriceEventId) (c : Cet) :
    ∃ l, (e, l) ∈ groupInsert acc e c ∧ c ∈ l := by
  unfold groupInsert
  by_cases hf : (acc.find? (fun x => decide (x.1 = e))).isSome
  · rw [if_pos hf]
    obtain ⟨x, hx⟩ := Option.isSome_iff_exists.mp hf
    have hmem := List.mem_of_find?_eq_some hx
    have hpx := List.find?_some hx
    rw [decide_eq_true_eq] at hpx
    refine ⟨x.2 ++ [c], ?_, by simp⟩
    have himg : (fun y => if y.1 = e then (y.1, y.2 ++ [c]) else y) x = (e, x.2 ++ [c]) := by
      simp [hpx]
    exact himg ▸ List.mem_map_of_mem _ hmem
  · rw [if_neg hf]
    exact ⟨[c], by simp, by simp⟩

theorem groupInsert_mem_mono (acc : List (BitMexPriceEventId × List Cet))
    (e2 : BitMexPriceEventId) (c2 : Cet) {e : BitMexPriceEventId} {l : List Cet}
    {c : Cet} (hmem : (e, l) ∈ acc) (hc : c ∈ l) :
    ∃ l2, (e, l2) ∈ groupInsert acc e2 c2 ∧ c ∈ l2 := by
  unfold groupInsert
  by_cases hf : (acc.find? (fun x => decide (x.1 = e2))).isSome
  · rw [if_pos hf]
    by_cases he : e = e2
    · refine ⟨l ++ [c2], ?_, by simp [hc]⟩
      have himg : (fun y => if y.1 = e2 then (y.1, y.2 ++ [c2]) else y) (e, l)
          = (e, l ++ [c2]) := by
        simp [he]
      exact himg ▸ List.mem_map_of_mem _ hmem
    · refine ⟨l, ?_, hc⟩
      have himg : (fun y => if y.1 = e2 then (y.1, y.2 ++ [c2]) else y) (e, l)
          = (e, l) := by
        simp [he]
      exact himg ▸ List.mem_map_of_mem _ hmem
  · rw [if_neg hf]
    exact ⟨l, by simp [hmem], hc⟩

theorem foldl_groupStep_mem_mono :
    ∀ (pairs : List (BitMexPriceEventId × Cet))
      (acc : List (BitMexPriceEventId × List Cet)) {e : BitMexPriceEventId}
      {l : List Cet} {c : Cet}, (e, l) ∈ acc → c ∈ l →
      ∃ l2, (e, l2) ∈ pairs.foldl groupStep acc ∧ c ∈ l2 := by
  intro pairs
  induction pairs with
  | nil =>
    intro acc e l c hmem hc
    exact ⟨l, hmem, hc⟩
  | cons p rest ih =>
    intro acc e l c hmem hc
    obtain ⟨l2, hmem2, hc2⟩ := groupInsert_mem_mono acc p.1 p.2 hmem hc
    rw [List.foldl_cons]
    exact ih (groupStep acc p) hmem2 hc2

theorem foldl_groupStep_mem :
    ∀ (pairs : List (BitMexPriceEventId × Cet))
      (acc : List (BitMexPriceEventId × List Cet)) {e : BitMexPriceEventId} {c : Cet},
      (e, c) ∈ pairs →
      ∃ l, (e, l) ∈ pairs.foldl groupStep acc ∧ c ∈ l := by
  intro pairs
  induction pairs with
  | nil =>
    intro acc e c h
    simp at h
  | cons p rest ih =>
    intro acc e c h
    rw [List.mem_cons] at h
    rcases h with heq | h
    · subst heq
      rw [List.foldl_cons]
      obtain ⟨l, hl, hcl⟩ := groupInsert_mem_self acc e c
      exact foldl_groupStep_mem_mono rest _ hl hcl
    · rw [List.foldl_cons]
      exact ih (groupStep acc p) h

theorem flatCetRows_length (cid : Int) :
    ∀ cets, (flatCetRows cid cets).length = cetCount cets := by
  intro cets
  induction cets with
  | nil => rfl
  | cons ec rest ih =>
    obtain ⟨e, cs⟩ := ec
    simp only [flatCetRows, List.length_append, List.length_map, ih, cetCount,
      List.map_cons, List.sum_cons]

/-! ### The claims about the store -/

/-- C2: for a `RolloverCompleted{dlc: Some}` event whose CFD resolves, if every
sub-insert reports `rows_affected = 1`, the insert succeeds, writing inside the single
inner transaction exactly one `rollover_completed_event_data` row, one
`revoked_commit_transactions` row per revoked commit, and one `open_cets` row per CET
across all oracle events (on top of the post-delete store); if any of the
`numSubInserts` sub-inserts reports `rows_affected ≠ 1`, the insert returns an error,
the transaction rolls back, and the observable store is unchanged (no partial
write). -/
theorem insert_rollover_exact_rows_atomic (faults : List Bool) (s : Store) (eid : Int)
    (uuid : OrderId) (ts : Nat) (d : Dlc) (f : FundingFee) (cid : Int)
    (hres : resolveCfd s uuid = some cid) :
    ((∀ k, k < numSubInserts d → execFault faults k = true) →
      insert faults s eid
          { id := uuid, event := .RolloverCompleted (some d) f, timestamp := ts } =
        .ok (rolloverInsertResult s uuid cid eid d f) ∧
      (rolloverInsertResult s uuid cid eid d f).rollover_completed_event_data.length =
        (deleteRollover s uuid).rollover_completed_event_data.length + 1 ∧
      (rolloverInsertResult s uuid cid eid d f).revoked_commit_transactions.length =
        (deleteRollover s uuid).revoked_commit_transactions.length +
          d.revoked_commit.length ∧
      (rolloverInsertResult s uuid cid eid d f).open_cets.length =
        (deleteRollover s uuid).open_cets.length + cetCount d.cets) ∧
    (∀ k0, k0 < numSubInserts d → execFault faults k0 = false →
      commitStore s (insert faults s eid
        { id := uuid, event := .RolloverCompleted (some d) f, timestamp := ts }) = s ∧
      (insert faults s eid
          { id := uuid, event := .RolloverCompleted (some d) f, timestamp := ts }).toOption
        = none) := by
  constructor
  · intro hf
    refine ⟨insert_rollover_ok faults s eid uuid ts d f cid hres hf, ?_, ?_, ?_⟩
    · simp [rolloverInsertResult]
    · simp [rolloverInsertResult]
    · simp [rolloverInsertResult, flatCetRows_length]
  · intro k0 hk0 hkf
    have herr := insert_rollover_err faults s eid uuid ts d f cid hres k0 hk0 hkf
    exact ⟨commitStore_of_error herr, toOption_of_error herr⟩

theorem insert_rollover_exact_rows_atomic_witness :
    insert [] storeW 7 evW = .ok (rolloverInsertResult storeW 10 1 7 dlcW ffW) ∧
    commitStore storeW (insert [false] storeW 7 evW) = storeW ∧
    (insert [false] storeW 7 evW).toOption = none :=
  ⟨((insert_rollover_exact_rows_atomic [] storeW 7 10 0 dlcW ffW 1 (by decide)).1
      fun k _ => execFault_nil k).1,
   ((insert_rollover_exact_rows_atomic [false] storeW 7 10 0 dlcW ffW 1 (by decide)).2
      0 (by decide) (by decide)).1,
   ((insert_rollover_exact_rows_atomic [false] storeW 7 10 0 dlcW ffW 1 (by decide)).2
      0 (by decide) (by decide)).2⟩

/-- C1 (counterexample): a `Dlc` whose `cets` map binds an oracle event to an empty
CET vector defeats the round-trip even though every amount is below `2 ^ 63`: the
insert succeeds but writes no `open_cets` row for that event, so the reloaded `cets`
map lacks the key and the reconstructed `Dlc` differs from the inserted one. -/
theorem rollover_roundtrip_counterexample :
    (insert [] storeW 7 evE).toOption = some insertedStoreE ∧
    load insertedStoreE 1 7 ≠ some (dlcE, ffW) ∧
    load insertedStoreE 1 7 = some ({ dlcE with cets := [] }, ffW) := by
  refine ⟨by rfl, by decide, by decide⟩

/-- C1 (amended): for every `Dlc` and `FundingFee` in which every amount (funding
fee, maker/taker lock amounts, CET maker/taker amounts) is strictly below `2 ^ 63`
satoshis and whose `cets` map (duplicate-free keys, as for any Rust HashMap) binds
every oracle event to a non-empty CET vector, inserting the
`RolloverCompleted{dlc: Some}` event and then loading by the resolved
`(cfd_row_id, event_row_id)` returns exactly the original `(Dlc, FundingFee)`. -/
theorem rollover_roundtrip (s : Store) (eid : Int) (uuid : OrderId) (ts : Nat)
    (d : Dlc) (f : FundingFee) (cid : Int)
    (hres : resolveCfd s uuid = some cid)
    (hkeys : (d.cets.map Prod.fst).Nodup)
    (hne : ∀ ec ∈ d.cets, ec.2 ≠ [])
    (hfee : f.fee.val < 2 ^ 63)
    (hmlock : d.maker_lock_amount.val < 2 ^ 63)
    (htlock : d.taker_lock_amount.val < 2 ^ 63)
    (hcets : ∀ ec ∈ d.cets, ∀ c ∈ ec.2,
      c.maker_amount.val < 2 ^ 63 ∧ c.taker_amount.val < 2 ^ 63) :
    insert [] s eid
        { id := uuid, event := .RolloverCompleted (some d) f, timestamp := ts } =
      .ok (rolloverInsertResult s uuid cid eid d f) ∧
    load (rolloverInsertResult s uuid cid eid d f) cid eid = some (d, f) :=
  ⟨insert_rollover_ok [] s eid uuid ts d f cid hres fun k _ => execFault_nil k,
   load_rolloverInsertResult s uuid cid eid d f hres hkeys hne⟩

theorem rollover_roundtrip_witness :
    insert [] storeW 7 evW = .ok (rolloverInsertResult storeW 10 1 7 dlcW ffW) ∧
    load (rolloverInsertResult storeW 10 1 7 dlcW ffW) 1 7 = some (dlcW, ffW) :=
  rollover_roundtrip storeW 7 10 0 dlcW ffW 1 (by decide) (by decide) (by decide)
    (by decide) (by decide) (by decide) (by decide)

/-- C3 (counterexample): a stored rollover row with `funding_fee = -1`,
`maker_lock_amount = -2`, `taker_lock_amount = -5`, and a CET row with
`maker_amount = -3` and `taker_amount = -4`, does not make `load` return an error:
`load` succeeds and silently reinterprets every one of these amounts as its
two's-complement unsigned value. -/
theorem load_negative_amount_counterexample :
    (load storeNeg 1 7).isSome = true ∧
    (load storeNeg 1 7).map (fun p => p.2.fee.val) = some (2 ^ 64 - 1) ∧
    (load storeNeg 1 7).map (fun p => p.1.maker_lock_amount.val)
      = some (2 ^ 64 - 2) ∧
    (load storeNeg 1 7).map (fun p => p.1.taker_lock_amount.val)
      = some (2 ^ 64 - 5) ∧
    (load storeNeg 1 7).map (fun p => p.1.cets) = some [(5, [rowToCet cetRowNeg])] ∧
    (rowToCet cetRowNeg).maker_amount.val = 2 ^ 64 - 3 ∧
    (rowToCet cetRowNeg).taker_amount.val = 2 ^ 64 - 4 := by
  refine ⟨by rfl, by decide, by decide, by decide, by decide, by decide, by decide⟩

/-- C3 (amended): `load` does not treat a negative persisted amount as corruption in
any column: whenever the scalar row is found, `load` succeeds, a negative
`funding_fee`, `maker_lock_amount` or `taker_lock_amount` is reinterpreted
two's-complement as the unsigned value `column + 2 ^ 64`, and every CET row of the
CFD appears in the returned mapping with its negative `maker_amount` / `taker_amount`
columns reinterpreted the same way. -/
theorem load_reinterprets_negative_amounts (s : Store) (cfd evt : Int)
    (row : RolloverRow)
    (hfind : s.rollover_completed_event_data.find?
      (fun r => decide (r.cfd_id = cfd) && decide (r.event_id = evt)) = some row) :
    (load s cfd evt).isSome = true ∧
    (row.funding_fee < 0 → -(2 ^ 63) ≤ row.funding_fee →
      (load s cfd evt).map (fun p => (p.2.fee.val : Int))
        = some (row.funding_fee + 2 ^ 64)) ∧
    (row.maker_lock_amount < 0 → -(2 ^ 63) ≤ row.maker_lock_amount →
      (load s cfd evt).map (fun p => (p.1.maker_lock_amount.val : Int))
        = some (row.maker_lock_amount + 2 ^ 64)) ∧
    (row.taker_lock_amount < 0 → -(2 ^ 63) ≤ row.taker_lock_amount →
      (load s cfd evt).map (fun p => (p.1.taker_lock_amount.val : Int))
        = some (row.taker_lock_amount + 2 ^ 64)) ∧
    (∀ r ∈ s.open_cets, r.cfd_id = cfd →
      (∀ p, load s cfd evt = some p →
        ∃ l, (r.oracle_event_id, l) ∈ p.1.cets ∧ rowToCet r ∈ l) ∧
      (r.maker_amount < 0 → -(2 ^ 63) ≤ r.maker_amount →
        ((rowToCet r).maker_amount.val : Int) = r.maker_amount + 2 ^ 64) ∧
      (r.taker_amount < 0 → -(2 ^ 63) ≤ r.taker_amount →
        ((rowToCet r).taker_amount.val : Int) = r.taker_amount + 2 ^ 64)) := by
  refine ⟨?_, ?_, ?_, ?_, ?_⟩
  · simp [load, hfind]
  · intro hneg hrange
    simp only [load, hfind]
    rw [Option.map_some']
    congr 1
    show ((i64_as_u64 row.funding_fee).val : Int) = row.funding_fee + 2 ^ 64
    simp only [i64_as_u64]
    omega
  · intro hneg hrange
    simp only [load, hfind]
    rw [Option.map_some']
    congr 1
    show ((i64_as_u64 row.maker_lock_amount).val : Int)
      = row.maker_lock_amount + 2 ^ 64
    simp only [i64_as_u64]
    omega
  · intro hneg hrange
    simp only [load, hfind]
    rw [Option.map_some']
    congr 1
    show ((i64_as_u64 row.taker_lock_amount).val : Int)
      = row.taker_lock_amount + 2 ^ 64
    simp only [i64_as_u64]
    omega
  · intro r hr hcfd
    refine ⟨?_, ?_, ?_⟩
    · intro p hp
      simp only [load, hfind, Option.some.injEq] at hp
      obtain rfl := hp.symm
      have hpair : (r.oracle_event_id, rowToCet r) ∈
          (s.open_cets.filter (fun x => decide (x.cfd_id = cfd))).map
            (fun x => (x.oracle_event_id, rowToCet x)) :=
        List.mem_map_of_mem _ (List.mem_filter.mpr ⟨hr, by simp [hcfd]⟩)
      obtain ⟨l, hl, hcl⟩ := foldl_groupStep_mem _ [] hpair
      exact ⟨l, hl, hcl⟩
    · intro hneg hrange
      show ((i64_as_u64 r.maker_amount).val : Int) = r.maker_amount + 2 ^ 64
      simp only [i64_as_u64]
      omega
    · intro hneg hrange
      show ((i64_as_u64 r.taker_amount).val : Int) = r.taker_amount + 2 ^ 64
      simp only [i64_as_u64]
      omega

theorem load_reinterprets_negative_amounts_witness :
    (load storeNeg 1 7).isSome = true ∧
    (load storeNeg 1 7).map (fun p => (p.2.fee.val : Int)) = some (-1 + 2 ^ 64) ∧
    (load storeNeg 1 7).map (fun p => (p.1.maker_lock_amount.val : Int))
      = some (-2 + 2 ^ 64) ∧
    (load storeNeg 1 7).map (fun p => (p.1.taker_lock_amount.val : Int))
      = some (-5 + 2 ^ 64) ∧
    ((rowToCet cetRowNeg).maker_amount.val : Int) = -3 + 2 ^ 64 ∧
    ((rowToCet cetRowNeg).taker_amount.val : Int) = -4 + 2 ^ 64 :=
  ⟨(load_reinterprets_negative_amounts storeNeg 1 7 rowNeg (by rfl)).1,
   (load_reinterprets_negative_amounts storeNeg 1 7 rowNeg (by rfl)).2.1
     (by decide) (by decide),
   (load_reinterprets_negative_amounts storeNeg 1 7 rowNeg (by rfl)).2.2.1
     (by decide) (by decide),
   (load_reinterprets_negative_amounts storeNeg 1 7 rowNeg (by rfl)).2.2.2.1
     (by decide) (by decide),
   ((load_reinterprets_negative_amounts storeNeg 1 7 rowNeg (by rfl)).2.2.2.2
     cetRowNeg (by decide) (by decide)).2.1 (by decide) (by decide),
   ((load_reinterprets_negative_amounts storeNeg 1 7 rowNeg (by rfl)).2.2.2.2
     cetRowNeg (by decide) (by decide)).2.2 (by decide) (by decide)⟩

/-- C4 (counterexample): an event carrying a funding fee of `2 ^ 63` satoshis is not
rejected with a typed error: `insert` succeeds, and the amount nevertheless
round-trips through `load` via the two's-complement reinterpretation. -/
theorem insert_large_amount_counterexample :
    (insert [] storeW 7 evBig).toOption.isSome = true ∧
    (load (commitStore storeW (insert [] storeW 7 evBig)) 1 7).map (fun p => p.2.fee)
      = some ffBig.fee := by
  refine ⟨by rfl, by decide⟩

/-- C4 (amended): `insert` never rejects an event because of amount magnitude: with
no injected faults, every `RolloverCompleted{dlc: Some}` event whose CFD resolves is
accepted, amounts `≥ 2 ^ 63` included (stored as negative signed 64-bit values), and
`load` reconstitutes the original unsigned funding fee and lock amounts. -/
theorem insert_accepts_large_amounts (s : Store) (eid : Int) (uuid : OrderId)
    (ts : Nat) (d : Dlc) (f : FundingFee) (cid : Int)
    (hres : resolveCfd s uuid = some cid) :
    insert [] s eid
        { id := uuid, event := .RolloverCompleted (some d) f, timestamp := ts } =
      .ok (rolloverInsertResult s uuid cid eid d f) ∧
    (load (rolloverInsertResult s uuid cid eid d f) cid eid).map
        (fun p => (p.2.fee, p.1.maker_lock_amount, p.1.taker_lock_amount))
      = some (f.fee, d.maker_lock_amount, d.taker_lock_amount) := by
  refine ⟨insert_rollover_ok [] s eid uuid ts d f cid hres fun k _ => execFault_nil k,
    ?_⟩
  simp only [load, rolloverInsertResult_find s uuid cid eid d f hres]
  rw [Option.map_some']
  simp only [rolloverRowOf, i64_as_u64_u64_as_i64]

theorem insert_accepts_large_amounts_witness :
    insert [] storeW 7 evBig = .ok (rolloverInsertResult storeW 10 1 7 dlcW ffBig) ∧
    (load (rolloverInsertResult storeW 10 1 7 dlcW ffBig) 1 7).map
        (fun p => (p.2.fee, p.1.maker_lock_amount, p.1.taker_lock_amount))
      = some (ffBig.fee, dlcW.maker_lock_amount, dlcW.taker_lock_amount) :=
  insert_accepts_large_amounts storeW 7 10 0 dlcW ffBig 1 (by decide)

/-- C5 (counterexample): an event of a kind other than `RolloverCompleted` is not
refused with an error: `insert` returns `Ok(())` and leaves the store unchanged. -/
theorem insert_other_event_counterexample :
    insert [] storeW 7 { id := 10, event := .OtherEvent 0, timestamp := 0 }
      = .ok storeW := rfl

/-- C5 (amended): for every `CfdEvent` whose kind is neither
`RolloverCompleted{dlc: Some}` nor `RolloverCompleted{dlc: None}`, the rollover
`insert` hits the catch-all arm, which only emits a `tracing::error!` log: it returns
success and writes nothing; it does not return an error. -/
theorem insert_other_event_returns_ok (faults : List Bool) (s : Store) (eid : Int)
    (uuid : OrderId) (tag ts : Nat) :
    insert faults s eid { id := uuid, event := .OtherEvent tag, timestamp := ts }
      = .ok s := rfl

/-- C10: `load` selects revoked-commit rows and CET rows by `cfd_id` alone, ignoring
`event_row_id`: whenever `load` succeeds, the returned `revoked_commit` list is
exactly the image of every `revoked_commit_transactions` row whose `cfd_id` matches,
every `open_cets` row whose `cfd_id` matches (whatever event wrote it) appears in the
returned `cets` mapping under its oracle event id, and only the scalar
`rollover_completed_event_data` row is filtered by `(cfd_id, event_id)`. -/
theorem load_selects_cets_by_cfd_id_only (s : Store) (cfd evt : Int) (d : Dlc)
    (f : FundingFee) (h : load s cfd evt = some (d, f)) :
    d.revoked_commit = (s.revoked_commit_transactions.filter
      (fun r => decide (r.cfd_id = cfd))).map rowToRevoked ∧
    (∀ r ∈ s.open_cets, r.cfd_id = cfd →
      ∃ l, (r.oracle_event_id, l) ∈ d.cets ∧ rowToCet r ∈ l) ∧
    (∀ row, s.rollover_completed_event_data.find?
        (fun r => decide (r.cfd_id = cfd) && decide (r.event_id = evt)) = some row →
      row.cfd_id = cfd ∧ row.event_id = evt) := by
  cases hfind : s.rollover_completed_event_data.find?
      (fun r => decide (r.cfd_id = cfd) && decide (r.event_id = evt)) with
  | none =>
    simp only [load, hfind] at h
    exact Option.noConfusion h
  | some row =>
    simp only [load, hfind, Option.some.injEq, Prod.mk.injEq] at h
    obtain ⟨hd, hf2⟩ := h
    refine ⟨?_, ?_, ?_⟩
    · rw [← hd]
      rfl
    · intro r hr hcfd
      have hpair : (r.oracle_event_id, rowToCet r) ∈
          (s.open_cets.filter (fun x => decide (x.cfd_id = cfd))).map
            (fun x => (x.oracle_event_id, rowToCet x)) :=
        List.mem_map_of_mem _ (List.mem_filter.mpr ⟨hr, by simp [hcfd]⟩)
      obtain ⟨l, hl, hcl⟩ := foldl_groupStep_mem _ [] hpair
      refine ⟨l, ?_, hcl⟩
      rw [← hd]
      exact hl
    · intro row2 hfind2
      obtain rfl := Option.some.inj hfind2
      have hp := List.find?_some hfind
      rw [Bool.and_eq_true, decide_eq_true_eq, decide_eq_true_eq] at hp
      exact hp

theorem load_selects_cets_by_cfd_id_only_witness :
    dlcC10.revoked_commit = (storeC10.revoked_commit_transactions.filter
      (fun r => decide (r.cfd_id = 1))).map rowToRevoked :=
  (load_selects_cets_by_cfd_id_only storeC10 1 7 dlcC10 ffC10 (by decide)).1

end Itchysats
